import Mathlib

/-!
Verification of the vve_cli request-dispatch and pipelining layer.

This file shallowly embeds the Python sources of `vve_cli`
(`vve_service.py`, `dumper.py`, `text_to_speech.py`, `main.py`) as Lean
definitions and proves properties of those definitions.  Wall-clock time
is modelled by an abstract natural-number clock; HTTP, the zip library
and the audio device are modelled as oracles supplying the values the
external collaborators would return.
-/

namespace VveCli

/-! ## `main.py`: IntervalTimer

`IntervalTimer` records a start instant; `elapsed` returns the time
passed since then (the source rounds to milliseconds; here instants are
abstract naturals, so no rounding is modelled). -/

structure IntervalTimer where
  start : ℕ
deriving Repr, DecidableEq

def IntervalTimer.elapsed (t : IntervalTimer) (now : ℕ) : ℕ :=
  now - t.start

/-! ## `vve_service.py`: `MetaEndPoint.run`

The shared `run` template:
```
t = IntervalTimer()
response = self._request(client, **kwargs)
response_time = t.elapsed()
self._put_log(response_time, response, **kwargs)
return self._set_content(response, **kwargs)
```
Each of the three steps is given an abstract duration; `run` threads an
abstract clock through the steps and produces the sequence of calls it
makes together with the elapsed time it reports to `_put_log`. -/

structure EndPointCosts where
  reqDur : ℕ
  logDur : ℕ
  extractDur : ℕ
deriving Repr, DecidableEq

inductive RunEv where
  | requestCall (startT endT : ℕ)
  | putLogCall (t : ℕ) (reportedElapsed : ℕ)
  | setContentCall (t : ℕ)
deriving Repr, DecidableEq

/-- Timed model of `MetaEndPoint.run`: returns the event trace, the
elapsed time reported to `_put_log`, and the instant at which `run`
returns. -/
def MetaEndPoint.run (c : EndPointCosts) (t0 : ℕ) : List RunEv × ℕ × ℕ :=
  let t := IntervalTimer.mk t0
  let t1 := t0 + c.reqDur
  let response_time := t.elapsed t1
  let t2 := t1 + c.logDur
  let t3 := t2 + c.extractDur
  ([RunEv.requestCall t0 t1, RunEv.putLogCall t1 response_time,
    RunEv.setContentCall t2], response_time, t3)

/-! ## `dumper.py`: TaggedDumper

Filenames are `{name}.{ext}` (non-indexed) or `{name}_{index:03d}.{ext}`
(indexed, index starting at 1).  Python's `%03d`/`{:03d}` formatting is
modelled by `fmt03` below. -/

/-- The character for a decimal digit, `'0' + d`. -/
def digitChar (d : ℕ) : Char := Char.ofNat (48 + d)

/-- Decimal numeral of `n`, most significant digit first (canonical,
no leading zeros; `0` is `"0"`). -/
def numeralChars (n : ℕ) : List Char :=
  if n = 0 then ['0'] else ((Nat.digits 10 n).reverse.map digitChar)

/-- Left-pad with `'0'` to width 3, as Python's `{:03d}` does for
non-negative arguments. -/
def padTo3 (cs : List Char) : List Char :=
  List.replicate (3 - cs.length) '0' ++ cs

/-- Python `f"{n:03d}"` for a natural `n`. -/
def fmt03 (n : ℕ) : String := String.mk (padTo3 (numeralChars n))

/-- Python `f"{n:02d}"` for a natural `n` (used for the speaker id in
dump tags). -/
def fmt02 (n : ℕ) : String :=
  String.mk (List.replicate (2 - (numeralChars n).length) '0' ++ numeralChars n)

/-- State of a `TaggedDumper`: the counter (`0` means non-indexed, as in
the source where a non-indexed dumper keeps `__index = 0`) and the
stripped extension. -/
structure TaggedDumper where
  index : ℕ
  ext : String
deriving Repr, DecidableEq

/-- Constructor of `TaggedDumper`: indexed dumpers start their counter at 1,
non-indexed at 0; the extension is stripped. -/
def TaggedDumper.init (extention : String) (is_indexed : Bool) : TaggedDumper :=
  ⟨if is_indexed then 1 else 0, extention.trim⟩

/-- Method `dump` of `TaggedDumper`: returns the filename written and the updated
dumper state.  `self.__format = f"\x7b\x7d.{extention}"`, so the name is
`{base}.{ext}` where `base` is `tag` or `tag_{index:03d}`. -/
def TaggedDumper.dump (d : TaggedDumper) (tag : String) : String × TaggedDumper :=
  if d.index > 0 then
    (tag ++ "_" ++ fmt03 d.index ++ "." ++ d.ext, ⟨d.index + 1, d.ext⟩)
  else
    (tag ++ "." ++ d.ext, d)

/-- Filenames produced by `n` sequential `dump` calls with the same tag. -/
def dumpNames (d : TaggedDumper) (tag : String) : ℕ → List String
  | 0 => []
  | n + 1 =>
    let r := d.dump tag
    r.1 :: dumpNames r.2 tag n

/-! ### Decimal formatting facts used for filename distinctness -/

/-- Reads a digit character back to its value. -/
def charToDigit (c : Char) : ℕ := c.toNat - 48

/-- Value of a most-significant-first digit-character list. -/
def valChars (cs : List Char) : ℕ :=
  cs.foldl (fun a c => 10 * a + charToDigit c) 0

theorem charToDigit_digitChar : ∀ d, d < 10 → charToDigit (digitChar d) = d := by
  decide

theorem foldl_msf_digits (l : List ℕ) :
    ∀ a : ℕ, l.reverse.foldl (fun acc d => 10 * acc + d) a
      = a * 10 ^ l.length + Nat.ofDigits 10 l := by
  induction l with
  | nil => intro a; simp
  | cons d l ih =>
    intro a
    rw [List.reverse_cons, List.foldl_append, ih a]
    simp only [List.foldl_cons, List.foldl_nil, List.length_cons,
      Nat.ofDigits_cons]
    ring

theorem valChars_numeralChars (n : ℕ) : valChars (numeralChars n) = n := by
  by_cases h : n = 0
  · subst h; decide
  · unfold valChars numeralChars
    rw [if_neg h, List.foldl_map]
    have hlt : ∀ d ∈ (Nat.digits 10 n).reverse, d < 10 := by
      intro d hd
      rw [List.mem_reverse] at hd
      exact Nat.digits_lt_base (by norm_num) hd
    have hcongr :
        (Nat.digits 10 n).reverse.foldl
            (fun a d => 10 * a + charToDigit (digitChar d)) 0
          = (Nat.digits 10 n).reverse.foldl (fun a d => 10 * a + d) 0 := by
      apply List.foldl_ext
      intro a d hd
      rw [charToDigit_digitChar d (hlt d hd)]
    rw [hcongr, foldl_msf_digits, Nat.zero_mul, Nat.zero_add,
      Nat.ofDigits_digits]

theorem foldl_zeros (k : ℕ) :
    (List.replicate k '0').foldl (fun a c => 10 * a + charToDigit c) 0 = 0 := by
  induction k with
  | zero => rfl
  | succ k ih => rw [List.replicate_succ, List.foldl_cons]; simpa using ih

theorem valChars_padTo3 (cs : List Char) : valChars (padTo3 cs) = valChars cs := by
  unfold padTo3 valChars
  rw [List.foldl_append, foldl_zeros]

theorem valChars_padTo3_numeralChars (n : ℕ) :
    valChars (padTo3 (numeralChars n)) = n := by
  rw [valChars_padTo3, valChars_numeralChars]

theorem fmt03_injective : Function.Injective fmt03 := by
  intro a b h
  have hd : padTo3 (numeralChars a) = padTo3 (numeralChars b) := by
    have := congrArg String.data h
    simpa [fmt03] using this
  have := congrArg valChars hd
  rwa [valChars_padTo3_numeralChars, valChars_padTo3_numeralChars] at this

theorem indexedName_injective (tag e : String) :
    Function.Injective (fun n => tag ++ "_" ++ fmt03 n ++ "." ++ e) := by
  intro a b h
  have hd := congrArg String.data h
  simp only [String.data_append, List.append_assoc] at hd
  have h1 := List.append_cancel_left hd
  have h2 := List.append_cancel_left h1
  have h3 : (fmt03 a).data = (fmt03 b).data := by
    have h4 : (fmt03 a).data ++ (".".data ++ e.data)
        = (fmt03 b).data ++ (".".data ++ e.data) := by
      simpa [List.append_assoc] using h2
    exact List.append_cancel_right h4
  exact fmt03_injective (congrArg String.mk h3)

theorem dumpNames_indexed (e tag : String) :
    ∀ (N i : ℕ), 1 ≤ i →
      dumpNames ⟨i, e⟩ tag N
        = (List.range N).map (fun k => tag ++ "_" ++ fmt03 (i + k) ++ "." ++ e) := by
  intro N
  induction N with
  | zero => intro i _; rfl
  | succ N ih =>
    intro i hi
    rw [dumpNames, List.range_succ_eq_map]
    simp only [TaggedDumper.dump, if_pos (by omega : i > 0), List.map_cons,
      Nat.add_zero, List.map_map]
    refine congrArg₂ _ rfl ?_
    rw [ih (i + 1) (by omega)]
    apply List.map_congr_left
    intro k _
    simp only [Function.comp_apply, Nat.succ_eq_add_one]
    rw [show i + 1 + k = i + (k + 1) by omega]

/-- C7: an indexed `TaggedDumper` produces, over `N` sequential `dump`
calls with one tag, exactly the filenames `{tag}_001.{ext}` …
`{tag}_{N:03d}.{ext}` (counter starting at 1, one step per call), which
are pairwise distinct, so no earlier file is overwritten; a non-indexed
`TaggedDumper` produces `{tag}.{ext}` with no counter suffix. -/
theorem claim_C7_dump_indexing (extention tag : String) (N : ℕ) :
    dumpNames (TaggedDumper.init extention true) tag N
        = (List.range N).map
            (fun k => tag ++ "_" ++ fmt03 (k + 1) ++ "." ++ extention.trim)
    ∧ (dumpNames (TaggedDumper.init extention true) tag N).Nodup
    ∧ ((TaggedDumper.init extention false).dump tag).1
        = tag ++ "." ++ extention.trim := by
  have hclosed :
      dumpNames (TaggedDumper.init extention true) tag N
        = (List.range N).map
            (fun k => tag ++ "_" ++ fmt03 (k + 1) ++ "." ++ extention.trim) := by
    rw [show TaggedDumper.init extention true = ⟨1, extention.trim⟩ from rfl,
      dumpNames_indexed extention.trim tag N 1 (le_refl 1)]
    apply List.map_congr_left
    intro k _
    rw [Nat.add_comm 1 k]
  refine ⟨hclosed, ?_, rfl⟩
  rw [hclosed]
  apply List.Nodup.map _ (List.nodup_range N)
  intro a b hab
  have := indexedName_injective tag extention.trim hab
  omega

/-- C1: the shared `run` of `MetaEndPoint` measures elapsed time around
the request step only; the reported elapsed time equals the request
duration (hence excludes log/extract time and is at most the wall-clock
time of the whole `run` call), and `run` invokes `_put_log` with that
elapsed time before invoking `_set_content`. -/
theorem claim_C1_run_telemetry (c : EndPointCosts) (t0 : ℕ) :
    (MetaEndPoint.run c t0).2.1 = c.reqDur
    ∧ (MetaEndPoint.run c t0).2.1 ≤ (MetaEndPoint.run c t0).2.2 - t0
    ∧ (MetaEndPoint.run c t0).1
        = [RunEv.requestCall t0 (t0 + c.reqDur),
           RunEv.putLogCall (t0 + c.reqDur) (MetaEndPoint.run c t0).2.1,
           RunEv.setContentCall (t0 + c.reqDur + c.logDur)] := by
  refine ⟨?_, ?_, ?_⟩ <;> simp [MetaEndPoint.run, IntervalTimer.elapsed]
  omega

/-! ## `vve_service.py`: JSON endpoint extraction (`_set_content`)

A `Response` carries status, text, raw bytes and a fallible JSON decode
(`response.json()` either yields a value or raises `JSONDecodeError`,
modelled as `Option`).  The JSON endpoint classes dump the raw text when
a dump directory is configured, then try `response.json()` and fall back
to an empty object on a decode failure. -/

inductive JsonValue where
  | null
  | boolean (b : Bool)
  | number (n : ℤ)
  | string (s : String)
  | array (elems : List JsonValue)
  | object (members : List (String × JsonValue))

structure Response where
  status : ℕ
  text : String
  content : List ℕ
  jsonBody : Option JsonValue

/-- Lazily-created dumper state shared by the endpoint classes:
whether a dump directory was configured, and the memoized
`TaggedDumper` once created. -/
structure EndPointDumpState where
  hasDumpDir : Bool
  dumper : Option TaggedDumper

/-- Model of the `InformationQueryAPI` extraction (vve_service.py:70-80): dump the
response text (non-indexed "json" dumper, default tag), then
`response.json()` with `{}` on `JSONDecodeError`.  Returns the updated
dump state, the filenames written, and the extracted value. -/
def InformationQueryAPI.set_content (st : EndPointDumpState) (response : Response) :
    EndPointDumpState × List String × JsonValue :=
  let dumped :=
    if st.hasDumpDir then
      let d := st.dumper.getD (TaggedDumper.init "json" false)
      let r := d.dump "dump"
      (EndPointDumpState.mk st.hasDumpDir (some r.2), [r.1])
    else (st, [])
  (dumped.1, dumped.2,
    match response.jsonBody with
    | some j => j
    | none => JsonValue.object [])

/-- Model of the `TextToAudioQueryAPI` extraction (vve_service.py:100-114): dump
the response text (indexed "json" dumper, tag `{tag}_s{speaker:02d}`),
then `response.json()` with `{}` on `JSONDecodeError`. -/
def TextToAudioQueryAPI.set_content (st : EndPointDumpState) (response : Response)
    (speaker_id : ℕ) (tag : String) :
    EndPointDumpState × List String × JsonValue :=
  let dumped :=
    if st.hasDumpDir then
      let d := st.dumper.getD (TaggedDumper.init "json" true)
      let r := d.dump (tag ++ "_s" ++ fmt02 speaker_id)
      (EndPointDumpState.mk st.hasDumpDir (some r.2), [r.1])
    else (st, [])
  (dumped.1, dumped.2,
    match response.jsonBody with
    | some j => j
    | none => JsonValue.object [])

/-- C8: for the JSON endpoints, when the response body fails to parse as
JSON (`jsonBody = none`, the branch the source reaches by catching
`JSONDecodeError`), `_set_content` returns the empty object; the
extraction is a total function, so the run continues without raising. -/
theorem claim_C8_json_decode_fallback (st st2 : EndPointDumpState)
    (r r2 : Response) (speaker_id : ℕ) (tag : String)
    (h : r.jsonBody = none) (h2 : r2.jsonBody = none) :
    (InformationQueryAPI.set_content st r).2.2 = JsonValue.object []
    ∧ (TextToAudioQueryAPI.set_content st2 r2 speaker_id tag).2.2
        = JsonValue.object [] := by
  constructor
  · simp [InformationQueryAPI.set_content, h]
  · simp [TextToAudioQueryAPI.set_content, h2]

theorem claim_C8_witness :
    (Response.mk 200 "not json" [] none).jsonBody = none
    ∧ ((InformationQueryAPI.set_content ⟨false, none⟩
          (Response.mk 200 "not json" [] none)).2.2 = JsonValue.object []
       ∧ (TextToAudioQueryAPI.set_content ⟨false, none⟩
            (Response.mk 200 "not json" [] none) 0 "dump").2.2
          = JsonValue.object []) :=
  ⟨rfl, claim_C8_json_decode_fallback ⟨false, none⟩ ⟨false, none⟩
      (Response.mk 200 "not json" [] none) (Response.mk 200 "not json" [] none)
      0 "dump" rfl rfl⟩

/-! ## `text_to_speech.py`: `tts_stream` (lines 125-146)

The streaming pipeline is modelled by the ordered trace of the calls it
makes.  `play_obj` is `None` before the first playback and afterwards
holds the index of the waveform being played, exactly as the source's
local variable holds the outstanding playback handle.  The final
`play_obj.wait_done()` is executed unconditionally; when `play_obj` is
still `None` (empty input list) that attribute access raises, which the
model reports as an error result. -/

inductive StreamEv where
  | audioQueryCall (text : String)
  | accentPhrasesCall (i : ℕ)
  | synthesisCall (i : ℕ)
  | waitDone (i : ℕ)
  | playStart (i : ℕ)
  | printElapsed
deriving Repr, DecidableEq

inductive StreamErr where
  | noneHasNoWaitDone
deriving Repr, DecidableEq

/-- The `for text in texts` loop of `tts_stream`: per line, call
`accent_phrases`, splice, call `synthesis`, wait for the previous
playback if one is outstanding, then start playback of this waveform.
Returns the trace and the final `play_obj`. -/
def streamLoop : List String → ℕ → Option ℕ → List StreamEv × Option ℕ
  | [], _, play_obj => ([], play_obj)
  | _ :: rest, i, play_obj =>
    let evs :=
      [StreamEv.accentPhrasesCall i, StreamEv.synthesisCall i]
        ++ (match play_obj with
            | some j => [StreamEv.waitDone j]
            | none => [])
        ++ [StreamEv.playStart i]
    let r := streamLoop rest (i + 1) (some i)
    (evs ++ r.1, r.2)

/-- Pipeline `tts_stream`: template `audio_query("", speaker)`, the loop, the
elapsed-time print, then the final `play_obj.wait_done()`. -/
def tts_stream (texts : List String) : List StreamEv × Except StreamErr Unit :=
  let r := streamLoop texts 0 none
  match r.2 with
  | some j =>
    ([StreamEv.audioQueryCall ""] ++ r.1 ++ [StreamEv.printElapsed, StreamEv.waitDone j],
      Except.ok ())
  | none =>
    ([StreamEv.audioQueryCall ""] ++ r.1 ++ [StreamEv.printElapsed],
      Except.error StreamErr.noneHasNoWaitDone)

/-- The loop trace from index `i` on, when a playback of waveform `i-1`
is outstanding at entry: one four-event block per remaining line. -/
def chainFrom (i : ℕ) : ℕ → List StreamEv
  | 0 => []
  | m + 1 =>
    [StreamEv.accentPhrasesCall i, StreamEv.synthesisCall i,
     StreamEv.waitDone (i - 1), StreamEv.playStart i] ++ chainFrom (i + 1) m

theorem streamLoop_closed (rest : List String) :
    ∀ i : ℕ, 1 ≤ i →
      streamLoop rest i (some (i - 1))
        = (chainFrom i rest.length, some (i + rest.length - 1)) := by
  induction rest with
  | nil => intro i hi; simp [streamLoop, chainFrom]
  | cons t rest ih =>
    intro i hi
    rw [streamLoop]
    have h2 : streamLoop rest (i + 1) (some i)
        = (chainFrom (i + 1) rest.length, some (i + 1 + rest.length - 1)) := by
      have := ih (i + 1) (by omega)
      simpa using this
    rw [h2]
    simp only [chainFrom, List.length_cons]
    rw [Prod.mk.injEq]
    refine ⟨by simp, ?_⟩
    congr 1
    omega

theorem tts_stream_closed (t : String) (rest : List String) :
    tts_stream (t :: rest)
      = ([StreamEv.audioQueryCall "", StreamEv.accentPhrasesCall 0,
          StreamEv.synthesisCall 0, StreamEv.playStart 0]
          ++ chainFrom 1 rest.length
          ++ [StreamEv.printElapsed, StreamEv.waitDone rest.length],
         Except.ok ()) := by
  rw [tts_stream, streamLoop]
  have h1 : streamLoop rest 1 (some 0)
      = (chainFrom 1 rest.length, some rest.length) := by
    have := streamLoop_closed rest 1 (le_refl 1)
    simpa using this
  rw [h1]
  simp

theorem count_playStart_chainFrom :
    ∀ m i k : ℕ, (chainFrom i m).count (StreamEv.playStart k)
      = if i ≤ k ∧ k < i + m then 1 else 0 := by
  intro m
  induction m with
  | zero =>
    intro i k
    simp only [chainFrom, List.count_nil]
    rw [if_neg (by omega)]
  | succ m ih =>
    intro i k
    simp only [chainFrom, List.count_append, List.count_cons, List.count_nil,
      beq_iff_eq, ih]
    split_ifs <;> simp_all <;> omega

theorem count_synthesisCall_chainFrom :
    ∀ m i k : ℕ, (chainFrom i m).count (StreamEv.synthesisCall k)
      = if i ≤ k ∧ k < i + m then 1 else 0 := by
  intro m
  induction m with
  | zero =>
    intro i k
    simp only [chainFrom, List.count_nil]
    rw [if_neg (by omega)]
  | succ m ih =>
    intro i k
    simp only [chainFrom, List.count_append, List.count_cons, List.count_nil,
      beq_iff_eq, ih]
    split_ifs <;> simp_all <;> omega

theorem count_waitDone_chainFrom :
    ∀ m i k : ℕ, 1 ≤ i → (chainFrom i m).count (StreamEv.waitDone k)
      = if i ≤ k + 1 ∧ k + 1 < i + m then 1 else 0 := by
  intro m
  induction m with
  | zero =>
    intro i k _
    simp only [chainFrom, List.count_nil]
    rw [if_neg (by omega)]
  | succ m ih =>
    intro i k hi
    simp only [chainFrom, List.count_append, List.count_cons, List.count_nil,
      beq_iff_eq, ih (i + 1) k (by omega)]
    split_ifs <;> simp_all <;> omega

theorem triple_sublist_chainFrom :
    ∀ m i k : ℕ, 1 ≤ i → i ≤ k → k < i + m →
      List.Sublist
        [StreamEv.synthesisCall k, StreamEv.waitDone (k - 1), StreamEv.playStart k]
        (chainFrom i m) := by
  intro m
  induction m with
  | zero => intro i k _ h1 h2; omega
  | succ m ih =>
    intro i k hi h1 h2
    rw [chainFrom]
    rcases eq_or_lt_of_le h1 with heq | hlt
    · subst heq
      exact (List.sublist_cons_self _ _).trans (List.sublist_append_left _ _)
    · exact (ih (i + 1) k (by omega) (by omega) (by omega)).trans
        (List.sublist_append_right _ _)

theorem playpair_sublist_chainFrom :
    ∀ m i k : ℕ, i ≤ k → k + 1 < i + m →
      List.Sublist
        [StreamEv.playStart k, StreamEv.waitDone k, StreamEv.playStart (k + 1)]
        (chainFrom i m) := by
  intro m
  induction m with
  | zero => intro i k h1 h2; omega
  | succ m ih =>
    intro i k h1 h2
    rw [chainFrom]
    rcases eq_or_lt_of_le h1 with heq | hlt
    · subst heq
      obtain ⟨m', rfl⟩ : ∃ m', m = m' + 1 := ⟨m - 1, by omega⟩
      rw [chainFrom]
      simp only [Nat.add_sub_cancel]
      have hpair : List.Sublist [StreamEv.waitDone i, StreamEv.playStart (i + 1)]
          ([StreamEv.accentPhrasesCall (i + 1), StreamEv.synthesisCall (i + 1),
            StreamEv.waitDone i, StreamEv.playStart (i + 1)]
            ++ chainFrom (i + 1 + 1) m') :=
        ((List.sublist_cons_self _ _).trans (List.sublist_cons_self _ _)).trans
          (List.sublist_append_left _ _)
      have hplay : List.Sublist [StreamEv.playStart i]
          [StreamEv.accentPhrasesCall i, StreamEv.synthesisCall i,
           StreamEv.waitDone (i - 1), StreamEv.playStart i] :=
        List.singleton_sublist.mpr (by simp)
      exact List.Sublist.append hplay hpair
    · exact (ih (i + 1) k (by omega) (by omega)).trans
        (List.sublist_append_right _ _)

/-- Embeds a sublist of the middle section of a three-part append. -/
theorem sublist_middle {α : Type} {l mid : List α} (pre suf : List α)
    (h : l.Sublist mid) : l.Sublist (pre ++ mid ++ suf) := by
  rw [List.append_assoc]
  exact ((h.trans (List.sublist_append_left mid suf)).trans
    (List.sublist_append_right pre (mid ++ suf)))

/-- C2: in the streaming pipeline over a non-empty line list, each call
event occurs exactly once; for every waveform `k ≥ 1` the trace contains
`synthesis(k)` before the wait on playback `k-1` before `playStart(k)`
(synthesis overlaps the previous playback, and playback `k` starts only
after the wait); between any two consecutive playback starts the wait on
the earlier one occurs (no two playbacks outstanding); and the run ends
by waiting on the final playback and returns normally. -/
theorem claim_C2_stream_overlap (texts : List String) (h : texts ≠ []) :
    (tts_stream texts).2 = Except.ok ()
    ∧ (tts_stream texts).1.getLast?
        = some (StreamEv.waitDone (texts.length - 1))
    ∧ (∀ k, k < texts.length →
        ((tts_stream texts).1.count (StreamEv.playStart k) = 1
         ∧ (tts_stream texts).1.count (StreamEv.waitDone k) = 1
         ∧ (tts_stream texts).1.count (StreamEv.synthesisCall k) = 1))
    ∧ (∀ k, 1 ≤ k → k < texts.length →
        List.Sublist
          [StreamEv.synthesisCall k, StreamEv.waitDone (k - 1),
           StreamEv.playStart k]
          (tts_stream texts).1)
    ∧ (∀ k, k + 1 < texts.length →
        List.Sublist
          [StreamEv.playStart k, StreamEv.waitDone k, StreamEv.playStart (k + 1)]
          (tts_stream texts).1) := by
  obtain ⟨t, rest, rfl⟩ : ∃ t rest, texts = t :: rest := by
    cases texts with
    | nil => exact absurd rfl h
    | cons t rest => exact ⟨t, rest, rfl⟩
  rw [tts_stream_closed]
  refine ⟨rfl, ?_, ?_, ?_, ?_⟩
  · have hsplit :
        [StreamEv.audioQueryCall "", StreamEv.accentPhrasesCall 0,
         StreamEv.synthesisCall 0, StreamEv.playStart 0]
          ++ chainFrom 1 rest.length
          ++ [StreamEv.printElapsed, StreamEv.waitDone rest.length]
        = ([StreamEv.audioQueryCall "", StreamEv.accentPhrasesCall 0,
            StreamEv.synthesisCall 0, StreamEv.playStart 0]
            ++ chainFrom 1 rest.length ++ [StreamEv.printElapsed])
          ++ [StreamEv.waitDone rest.length] := by
      simp
    rw [hsplit, List.getLast?_concat]
    simp
  · intro k hk
    simp only [List.length_cons] at hk
    refine ⟨?_, ?_, ?_⟩ <;>
      simp only [List.count_append, List.count_cons, List.count_nil,
        beq_iff_eq, count_playStart_chainFrom, count_synthesisCall_chainFrom,
        count_waitDone_chainFrom rest.length 1 k (le_refl 1)] <;>
      split_ifs <;> simp_all <;> omega
  · intro k hk1 hk2
    simp only [List.length_cons] at hk2
    exact sublist_middle _ _
      (triple_sublist_chainFrom rest.length 1 k (le_refl 1) hk1 (by omega))
  · intro k hk
    simp only [List.length_cons] at hk
    rcases Nat.eq_zero_or_pos k with hk0 | hkpos
    · subst hk0
      obtain ⟨m', hm⟩ : ∃ m', rest.length = m' + 1 := ⟨rest.length - 1, by omega⟩
      rw [hm, List.append_assoc, chainFrom]
      simp only [Nat.sub_self]
      have hplay : List.Sublist [StreamEv.playStart 0]
          [StreamEv.audioQueryCall "", StreamEv.accentPhrasesCall 0,
           StreamEv.synthesisCall 0, StreamEv.playStart 0] :=
        List.singleton_sublist.mpr (by simp)
      have hpair : List.Sublist [StreamEv.waitDone 0, StreamEv.playStart 1]
          (([StreamEv.accentPhrasesCall 1, StreamEv.synthesisCall 1,
             StreamEv.waitDone 0, StreamEv.playStart 1]
             ++ chainFrom 2 m')
            ++ [StreamEv.printElapsed, StreamEv.waitDone (m' + 1)]) :=
        (((List.sublist_cons_self _ _).trans (List.sublist_cons_self _ _)).trans
          (List.sublist_append_left _ _)).trans (List.sublist_append_left _ _)
      exact List.Sublist.append hplay hpair
    · exact sublist_middle _ _
        (playpair_sublist_chainFrom rest.length 1 k hkpos (by omega))

theorem claim_C2_stream_overlap_witness :
    (tts_stream ["an utterance", "a second utterance"]).2 = Except.ok ()
    ∧ (tts_stream ["an utterance", "a second utterance"]).1.getLast?
        = some (StreamEv.waitDone 1) :=
  ⟨(claim_C2_stream_overlap ["an utterance", "a second utterance"]
      (by simp)).1,
   (claim_C2_stream_overlap ["an utterance", "a second utterance"]
      (by simp)).2.1⟩

/-! ## `text_to_speech.py` lines 62-84: the input decoding cascade

`readlines()` on a file opened with mode `"rb"` yields `bytes` lines; on
`sys.stdin` it yields `str` lines, so the raw input is one of the two
homogeneous shapes below. -/

inductive RawInput where
  | fromBytes (lines : List (List ℕ))
  | fromStr (lines : List String)

/-- Python's `str.strip()` whitespace on the ASCII range (the source's
inputs are lines whose surrounding whitespace is spaces, tabs and line
terminators; Python also strips some further Unicode spaces, which no
claim depends on). -/
def isPySpace (c : Char) : Bool :=
  c = ' ' || c = '\t' || c = '\n' || c = '\r'
    || c.toNat = 0x0B || c.toNat = 0x0C

/-- Python `str.strip()`: remove leading and trailing whitespace. -/
def pyStrip (s : String) : String :=
  String.mk (((s.data.dropWhile isPySpace).reverse.dropWhile isPySpace).reverse)

/-- A UTF-8 continuation byte. -/
def isCont (b : ℕ) : Bool := 0x80 ≤ b && b < 0xC0

/-- Strict UTF-8 decoding of a byte list (Python `bytes.decode("utf-8")`
semantics: rejects continuation-only bytes, overlong forms, surrogates
and code points above U+10FFFF; failure raises `UnicodeDecodeError`,
modelled as `none`). -/
def utf8Decode : List ℕ → Option (List Char)
  | [] => some []
  | b :: rest =>
    if b < 0x80 then
      (utf8Decode rest).map (fun cs => Char.ofNat b :: cs)
    else if b < 0xC2 then none
    else if b < 0xE0 then
      match rest with
      | c1 :: rest2 =>
        if isCont c1 then
          (utf8Decode rest2).map
            (fun cs => Char.ofNat ((b - 0xC0) * 0x40 + (c1 - 0x80)) :: cs)
        else none
      | [] => none
    else if b < 0xF0 then
      match rest with
      | c1 :: c2 :: rest2 =>
        if isCont c1 && isCont c2 then
          let cp := (b - 0xE0) * 0x1000 + (c1 - 0x80) * 0x40 + (c2 - 0x80)
          if cp < 0x800 || (0xD800 ≤ cp && cp < 0xE000) then none
          else (utf8Decode rest2).map (fun cs => Char.ofNat cp :: cs)
        else none
      | _ => none
    else if b < 0xF5 then
      match rest with
      | c1 :: c2 :: c3 :: rest2 =>
        if isCont c1 && isCont c2 && isCont c3 then
          let cp := (b - 0xF0) * 0x40000 + (c1 - 0x80) * 0x1000
            + (c2 - 0x80) * 0x40 + (c3 - 0x80)
          if cp < 0x10000 || 0x10FFFF < cp then none
          else (utf8Decode rest2).map (fun cs => Char.ofNat cp :: cs)
        else none
      | _ => none
    else none

/-- Python `bytes.decode("utf-8-sig")`: strip one leading BOM byte
sequence, then decode as UTF-8. -/
def utf8SigDecode (bs : List ℕ) : Option (List Char) :=
  match bs with
  | 0xEF :: 0xBB :: 0xBF :: rest => utf8Decode rest
  | _ => utf8Decode bs

/-- Modelled subset of Python's external cp932 codec for
`str.encode("cp932", "surrogateescape")`: the ASCII range maps to
itself and halfwidth katakana U+FF61-U+FF9F map to single bytes
0xA1-0xDF; other characters are treated as unencodable
(`UnicodeEncodeError`, modelled as `none`).  The surrogateescape
handler concerns lone surrogates, which a Lean `Char` cannot hold. -/
def cp932EncodeChar (c : Char) : Option (List ℕ) :=
  if c.toNat < 0x80 then some [c.toNat]
  else if 0xFF61 ≤ c.toNat ∧ c.toNat ≤ 0xFF9F then some [c.toNat - 0xFF61 + 0xA1]
  else none

def cp932Encode (s : String) : Option (List ℕ) :=
  (s.data.mapM cp932EncodeChar).map List.flatten

inductive PyExc where
  | unicodeDecodeError
  | unicodeEncodeError
deriving Repr, DecidableEq

/-- One line of `line.encode("cp932", "surrogateescape").decode("utf-8").strip()`. -/
def reinterpretLine (line : String) : Except PyExc String :=
  match cp932Encode line with
  | none => Except.error PyExc.unicodeEncodeError
  | some bs =>
    match utf8Decode bs with
    | none => Except.error PyExc.unicodeDecodeError
    | some cs => Except.ok (pyStrip (String.mk cs))

def rawIsEmpty : RawInput → Bool
  | RawInput.fromBytes ls => ls.isEmpty
  | RawInput.fromStr ls => ls.isEmpty

/-- The source's first test, `byte_strings[0] == "\uFEFF"`: in Python a
`bytes` object never compares equal to a `str`, so this is `false` for
file input; for stdin input it requires the first line to be exactly
the one-character string `"\uFEFF"`. -/
def firstIsBomLiteral : RawInput → Bool
  | RawInput.fromBytes _ => false
  | RawInput.fromStr [] => false
  | RawInput.fromStr (s :: _) => s = "\uFEFF"

/-- The source's second test, `type(byte_strings[0]) == str`. -/
def firstIsStr : RawInput → Bool
  | RawInput.fromBytes _ => false
  | RawInput.fromStr _ => true

/-- The `line.decode("utf-8-sig")` branch.  With `str` lines (the only
lines that can reach it, since only a `str` can equal `"\uFEFF"`) the
attribute access `line.decode` raises `AttributeError` — uncaught, so
the process dies with exit status 1.  With `bytes` lines it would
decode each line as UTF-8-with-BOM-stripped. -/
def decodeUtf8SigBranch : RawInput → Except (ℕ × String) (List String)
  | RawInput.fromStr _ =>
    Except.error (1, "AttributeError: str object has no attribute decode")
  | RawInput.fromBytes ls =>
    match ls.mapM utf8SigDecode with
    | some css => Except.ok (css.map (fun cs => pyStrip (String.mk cs)))
    | none => Except.error (1, "UnicodeDecodeError (uncaught)")

/-- The cp932 reinterpretation branch with its two exception handlers:
`UnicodeDecodeError` falls back to stripping the lines as plain text,
`UnicodeEncodeError` is fatal with a stdin/file-distinguishing message
and exit code 1.  `bytes` lines cannot reach this branch; there the
attribute access `line.encode` would raise `AttributeError`. -/
def decodeCp932Branch (is_stdin : Bool) : RawInput → Except (ℕ × String) (List String)
  | RawInput.fromBytes _ =>
    Except.error (1, "AttributeError: bytes object has no attribute encode")
  | RawInput.fromStr ls =>
    match ls.mapM reinterpretLine with
    | Except.ok ts => Except.ok ts
    | Except.error PyExc.unicodeDecodeError => Except.ok (ls.map pyStrip)
    | Except.error PyExc.unicodeEncodeError =>
      Except.error (1,
        if is_stdin then "[Error] Unreadable string(s) came from stdin."
        else "[Error] Unreadable string(s) appeared in file.")

/-- The final `else` branch, `line.decode("utf-8").strip()`: plain
strict UTF-8, no BOM stripping; a decode failure here is uncaught.
`str` lines cannot reach this branch; there `line.decode` would raise
`AttributeError`. -/
def decodeUtf8Branch : RawInput → Except (ℕ × String) (List String)
  | RawInput.fromStr _ =>
    Except.error (1, "AttributeError: str object has no attribute decode")
  | RawInput.fromBytes ls =>
    match ls.mapM utf8Decode with
    | some css => Except.ok (css.map (fun cs => pyStrip (String.mk cs)))
    | none => Except.error (1, "UnicodeDecodeError (uncaught)")

/-- The decoding cascade of `main` (text_to_speech.py lines 62-84). -/
def readTexts (is_stdin : Bool) (inp : RawInput) : Except (ℕ × String) (List String) :=
  if rawIsEmpty inp then Except.error (1, "[Error] No input.")
  else if firstIsBomLiteral inp then decodeUtf8SigBranch inp
  else if firstIsStr inp then decodeCp932Branch is_stdin inp
  else decodeUtf8Branch inp

/-! ## `text_to_speech.py` lines 39-56 and 86-103: line selection

`range_tuple` parses the `-n` (`--line_numbers`) argument into a tuple of
integer indices and `slice` objects; `main` applies `itemgetter` over
the parsed tuple and flattens the result, treating `IndexError` as
fatal. -/

inductive LineSel where
  | idx (i : ℤ)
  | interval (start stop : Option ℤ)
deriving Repr, DecidableEq

/-- Python list indexing `xs[i]`: negative indices count from the end;
anything out of range raises `IndexError`. -/
def pyIndex (xs : List String) (i : ℤ) : Except Unit String :=
  let n : ℤ := xs.length
  let j := if i < 0 then i + n else i
  if 0 ≤ j ∧ j < n then Except.ok (xs.getD j.toNat "") else Except.error ()

/-- Python slice endpoint resolution for step 1: negative endpoints
count from the end, and both endpoints clamp into `[0, n]`. -/
def pySliceBound (n : ℤ) (dflt : ℤ) : Option ℤ → ℤ
  | none => dflt
  | some i => if i < 0 then max 0 (n + i) else min i n

/-- Python list slicing `xs[start:stop]` (step 1): never raises; an
out-of-range slice clamps, possibly to the empty list. -/
def pySlice (xs : List String) (start stop : Option ℤ) : List String :=
  let n : ℤ := xs.length
  let s := pySliceBound n 0 start
  let e := pySliceBound n n stop
  (xs.drop s.toNat).take (e - s).toNat

/-- One element of the `itemgetter` tuple: an integer index yields one
item (or `IndexError`), a slice yields a sub-list. -/
def evalSel (texts : List String) : LineSel → Except Unit (List String)
  | LineSel.idx i => (pyIndex texts i).map (fun x => [x])
  | LineSel.interval a b => Except.ok (pySlice texts a b)

/-- Python `itemgetter(*line_numbers)` evaluates each element of the tuple in
order; the first `IndexError` propagates. -/
def evalSels (texts : List String) : List LineSel → Except Unit (List (List String))
  | [] => Except.ok []
  | s :: rest =>
    match evalSel texts s with
    | Except.error e => Except.error e
    | Except.ok v =>
      match evalSels texts rest with
      | Except.error e => Except.error e
      | Except.ok vs => Except.ok (v :: vs)

/-- Python `itemgetter(*line_numbers)(texts)` followed by the source's
flattening loop (lists are spliced in place, single items appended). -/
def applySel (texts : List String) (sels : List LineSel) : Except Unit (List String) :=
  (evalSels texts sels).map List.flatten

/-- Lines 86-103 of `main`: `if args.line_numbers:` (an empty tuple is
falsy), with `IndexError` caught and turned into the fatal
`-n` (`--line_numbers`) diagnostic and exit code 1. -/
def selectByLineNumbers (texts : List String) (sels : List LineSel) :
    Except (ℕ × String) (List String) :=
  if sels.isEmpty then Except.ok texts
  else
    match applySel texts sels with
    | Except.ok ts => Except.ok ts
    | Except.error _ =>
      Except.error (1, "[Error] -n/--line_numbers has invalid index.")

/-- Python `int(s)` on a stripped decimal token (optional sign; digit
group separators are not modelled); failure raises `ValueError`. -/
def pyInt (s : String) : Except Unit ℤ :=
  let t := ((s.data.dropWhile isPySpace).reverse.dropWhile isPySpace).reverse
  match t with
  | [] => Except.error ()
  | '-' :: ds =>
    if ds ≠ [] ∧ ds.all Char.isDigit then Except.ok (-(valChars ds : ℤ))
    else Except.error ()
  | '+' :: ds =>
    if ds ≠ [] ∧ ds.all Char.isDigit then Except.ok (valChars ds : ℤ)
    else Except.error ()
  | ds =>
    if ds.all Char.isDigit then Except.ok (valChars ds : ℤ)
    else Except.error ()

/-- Python `re.match` for the pattern of two optional digit groups separated by
one of `-`/`:`: matches a prefix of the token (nothing anchors the
end), greedily taking digits on both sides. -/
def matchRangeGroups (s : List Char) : Option (List Char × List Char) :=
  let g1 := s.takeWhile Char.isDigit
  match s.drop g1.length with
  | c :: rest =>
    if c = '-' || c = ':' then some (g1, rest.takeWhile Char.isDigit)
    else none
  | [] => none

/-- One comma-separated token of `range_tuple`: a matching range form
either appends a `slice(start, stop)` or is skipped with a warning when
`start and stop and not stop >= start` (Python truthiness: `None` and
`0` are falsy); a non-matching token goes through `int(number) - 1`. -/
def parseSelToken (number : String) : Except Unit (Option LineSel) :=
  match matchRangeGroups number.data with
  | some g =>
    let start : Option ℤ := if g.1.isEmpty then none else some ((valChars g.1 : ℤ) - 1)
    let stop : Option ℤ := if g.2.isEmpty then none else some ((valChars g.2 : ℤ))
    match start, stop with
    | some a, some b =>
      if a ≠ 0 ∧ b ≠ 0 ∧ ¬(b ≥ a) then Except.ok none
      else Except.ok (some (LineSel.interval start stop))
    | _, _ => Except.ok (some (LineSel.interval start stop))
  | none => (pyInt number).map (fun v => some (LineSel.idx (v - 1)))

/-- Python `str.split(",")`: split on every comma; the empty string
yields one empty field. -/
def splitComma : List Char → List (List Char)
  | [] => [[]]
  | c :: rest =>
    match splitComma rest with
    | [] => [[]]
    | g :: gs => if c = ',' then [] :: g :: gs else (c :: g) :: gs

/-- Parser `range_tuple` (text_to_speech.py lines 39-56). -/
def range_tuple (arg : String) : Except Unit (List LineSel) :=
  (((splitComma arg.data).map String.mk).mapM parseSelToken).map
    (fun l => l.filterMap id)

/-- C4 (code bug evidence): a file input whose single line is the bytes
`EF BB BF 61 0A` — its decoded leading marker is the byte-order mark —
does not take the UTF-8-sig branch (a `bytes` line never equals the
`str` `"﻿"`), and the cascade returns the text with the BOM
character still attached, while UTF-8-sig decoding of those bytes would
have stripped it. -/
theorem claim_C4_bom_branch_dead :
    firstIsBomLiteral (RawInput.fromBytes [[0xEF, 0xBB, 0xBF, 0x61, 0x0A]]) = false
    ∧ readTexts false (RawInput.fromBytes [[0xEF, 0xBB, 0xBF, 0x61, 0x0A]])
        = Except.ok ["﻿a"]
    ∧ utf8SigDecode [0xEF, 0xBB, 0xBF, 0x61, 0x0A] = some ['a', '\n'] :=
  ⟨rfl, rfl, rfl⟩

theorem applySel_error (texts : List String) :
    ∀ sels : List LineSel,
      (∃ s ∈ sels, evalSel texts s = Except.error ()) →
      applySel texts sels = Except.error () := by
  intro sels
  induction sels with
  | nil => intro h; simp at h
  | cons s rest ih =>
    intro h
    rw [applySel, evalSels]
    cases hs : evalSel texts s with
    | error e => cases e; rfl
    | ok v =>
      obtain ⟨s', hs', herr⟩ := h
      rcases List.mem_cons.mp hs' with rfl | hmem
      · rw [hs] at herr; exact absurd herr (by simp)
      · have h2 := ih ⟨s', hmem, herr⟩
        rw [applySel] at h2
        cases hrest : evalSels texts rest with
        | error e => cases e; rfl
        | ok vs => rw [hrest] at h2; simp [Except.map] at h2

theorem applySel_intervals_ok (texts : List String) :
    ∀ sels : List LineSel,
      (∀ s ∈ sels, ∃ a b, s = LineSel.interval a b) →
      ∃ res, applySel texts sels = Except.ok res := by
  intro sels
  induction sels with
  | nil => intro _; exact ⟨[], rfl⟩
  | cons s rest ih =>
    intro h
    obtain ⟨a, b, rfl⟩ := h s (List.mem_cons_self s rest)
    obtain ⟨res, hres⟩ := ih (fun s' hs' => h s' (List.mem_cons_of_mem _ hs'))
    rw [applySel] at hres
    cases hrest : evalSels texts rest with
    | error e => rw [hrest] at hres; simp [Except.map] at hres
    | ok vs =>
      refine ⟨pySlice texts a b ++ vs.flatten, ?_⟩
      rw [applySel, evalSels]
      simp only [evalSel, hrest]
      rfl

/-- C5 (counterexample): the selector `"10-12"` — a range entirely out
of range of a 5-line list — parses to `slice(9, 12)` and does not fail
fatally: Python slicing clamps, so selection silently succeeds with the
empty list, contradicting the claim that every out-of-range index or
range aborts with exit code 1. -/
theorem claim_C5_range_counterexample :
    range_tuple "10-12" = Except.ok [LineSel.interval (some 9) (some 12)]
    ∧ selectByLineNumbers ["line1", "line2", "line3", "line4", "line5"]
        [LineSel.interval (some 9) (some 12)] = Except.ok [] :=
  ⟨rfl, rfl⟩

/-- C5 (amended): a selector containing an out-of-range *integer index*
fails fatally with exit code 1 and the message naming the `-n`
(`--line_numbers`) flag; an out-of-range *range* does not abort — slice
elements never raise, they clamp (possibly to the empty list). -/
theorem claim_C5_selector_errors :
    (∀ (texts : List String) (sels : List LineSel),
      (∃ i : ℤ, LineSel.idx i ∈ sels ∧ pyIndex texts i = Except.error ()) →
      selectByLineNumbers texts sels
        = Except.error (1, "[Error] -n/--line_numbers has invalid index."))
    ∧ (∀ (texts : List String) (sels : List LineSel),
      (∀ s ∈ sels, ∃ a b, s = LineSel.interval a b) →
      ∃ res, selectByLineNumbers texts sels = Except.ok res) := by
  constructor
  · intro texts sels ⟨i, hmem, herr⟩
    have hne : sels.isEmpty = false := by
      cases sels with
      | nil => simp at hmem
      | cons a l => rfl
    have happ : applySel texts sels = Except.error () :=
      applySel_error texts sels
        ⟨LineSel.idx i, hmem, by simp [evalSel, herr, Except.map]⟩
    rw [selectByLineNumbers, if_neg (by simp [hne]), happ]
  · intro texts sels hall
    by_cases hne : sels.isEmpty
    · exact ⟨texts, by rw [selectByLineNumbers, if_pos hne]⟩
    · obtain ⟨res, hres⟩ := applySel_intervals_ok texts sels hall
      exact ⟨res, by rw [selectByLineNumbers, if_neg hne, hres]⟩

theorem claim_C5_selector_errors_witness :
    selectByLineNumbers ["line1", "line2", "line3", "line4", "line5"]
        [LineSel.idx 9]
      = Except.error (1, "[Error] -n/--line_numbers has invalid index.")
    ∧ range_tuple "10" = Except.ok [LineSel.idx 9] :=
  ⟨claim_C5_selector_errors.1 ["line1", "line2", "line3", "line4", "line5"]
      [LineSel.idx 9] ⟨9, List.mem_singleton.mpr rfl, rfl⟩,
   rfl⟩

/-- C9: for a 5-line list, the selector string `"2,4-5"` parses to the
index 2 and the inclusive range 4-5 (1-based), and selection resolves
to exactly the lines at positions 2, 4, 5 in that order. -/
theorem claim_C9_selector_resolution :
    range_tuple "2,4-5"
        = Except.ok [LineSel.idx 1, LineSel.interval (some 3) (some 5)]
    ∧ selectByLineNumbers ["line1", "line2", "line3", "line4", "line5"]
        [LineSel.idx 1, LineSel.interval (some 3) (some 5)]
      = Except.ok ["line2", "line4", "line5"] :=
  ⟨rfl, rfl⟩

/-- C10: a range-only selector can resolve to zero lines without error;
on an empty line list the streaming pipeline still issues the template
`audio_query("")` call but finishes by calling `wait_done` on the
never-assigned `play_obj` (still `None`), raising instead of returning
normally; for every non-empty line list the final wait succeeds and the
pipeline returns normally. -/
theorem claim_C10_empty_input_crash :
    selectByLineNumbers ["line1", "line2", "line3", "line4", "line5"]
        [LineSel.interval (some 5) none] = Except.ok []
    ∧ (tts_stream []).2 = Except.error StreamErr.noneHasNoWaitDone
    ∧ StreamEv.audioQueryCall "" ∈ (tts_stream []).1
    ∧ (∀ texts : List String, texts ≠ [] → (tts_stream texts).2 = Except.ok ()) := by
  refine ⟨rfl, rfl, by simp [tts_stream, streamLoop], ?_⟩
  intro texts h
  obtain ⟨t, rest, rfl⟩ : ∃ t rest, texts = t :: rest := by
    cases texts with
    | nil => exact absurd rfl h
    | cons t rest => exact ⟨t, rest, rfl⟩
  rw [tts_stream_closed]

theorem claim_C10_empty_input_crash_witness :
    (tts_stream ["one line"]).2 = Except.ok () :=
  claim_C10_empty_input_crash.2.2.2 ["one line"] (by simp)

/-! ## `text_to_speech.py` lines 149-173: `tts_batch`

The external collaborators are an oracle: per-text `audio_query`
responses, the `multi_synthesis` response bytes, the zip library's
parse of those bytes into the archive's member list (name and content,
in the archive's internal order), and the `connect_waves` response.
Transport exceptions and `BadZipFile` propagate uncaught, aborting the
run; the model returns them as error results together with the trace of
calls made before the abort. -/

inductive TransportErr where
  | connectionError
deriving Repr, DecidableEq

inductive ZipErr where
  | badZipFile
deriving Repr, DecidableEq

inductive BatchErr where
  | transport (e : TransportErr)
  | zip (e : ZipErr)
deriving Repr, DecidableEq

structure BatchOracle where
  audioQueryResp : String → Except TransportErr JsonValue
  multiSynthResp : List JsonValue → Except TransportErr (List ℕ)
  unzip : List ℕ → Except ZipErr (List (String × List ℕ))
  connectWavesResp : List String → Except TransportErr (List ℕ)

inductive BatchEv where
  | audioQueryCall (text : String)
  | multiSynthesisCall (queries : List JsonValue)
  | connectWavesCall (base64_waves : List String)
  | playbackCall

/-- Python `ZipFile.namelist()`: member names in archive order. -/
def zipNamelist (members : List (String × List ℕ)) : List String :=
  members.map Prod.fst

/-- Python `ZipFile.open(name)` plus `read()`: the member bytes for a name; when
an archive repeats a name, the name-to-info map keeps the last entry. -/
def zipOpenRead (members : List (String × List ℕ)) (wave_name : String) : List ℕ :=
  match (members.filter (fun m => m.1 == wave_name)).getLast? with
  | some m => m.2
  | none => []

/-- Base64 alphabet lookup. -/
def b64Char (n : ℕ) : Char :=
  "ABCDEFGHIJKLMNOPQRSTUVWXYZabcdefghijklmnopqrstuvwxyz0123456789+/".data.getD n 'A'

/-- RFC 4648 standard base64 of a byte list, as
`base64.standard_b64encode(...).decode("utf-8")` produces. -/
def b64encodeList : List ℕ → List Char
  | [] => []
  | [b0] => [b64Char (b0 / 4), b64Char (b0 % 4 * 16), '=', '=']
  | [b0, b1] =>
    [b64Char (b0 / 4), b64Char (b0 % 4 * 16 + b1 / 16), b64Char (b1 % 16 * 4), '=']
  | b0 :: b1 :: b2 :: rest =>
    [b64Char (b0 / 4), b64Char (b0 % 4 * 16 + b1 / 16),
     b64Char (b1 % 16 * 4 + b2 / 64), b64Char (b2 % 64)] ++ b64encodeList rest

def standard_b64encode (bs : List ℕ) : String := String.mk (b64encodeList bs)

/-- The zip-unpacking loop of `tts_batch` (lines 160-166): iterate
`namelist()` in archive order, open and read each member, base64-encode
its bytes. -/
def wava_b64_list (members : List (String × List ℕ)) : List String :=
  (zipNamelist members).map (fun n => standard_b64encode (zipOpenRead members n))

/-- The per-line `audio_query` loop of `tts_batch` (lines 154-157):
first transport error aborts; returns the trace and the collected
`audio_query_list`. -/
def queryLoop (o : BatchOracle) : List String → List BatchEv × Except TransportErr (List JsonValue)
  | [] => ([], Except.ok [])
  | text :: rest =>
    match o.audioQueryResp text with
    | Except.error e => ([BatchEv.audioQueryCall text], Except.error e)
    | Except.ok q =>
      let r := queryLoop o rest
      (BatchEv.audioQueryCall text :: r.1,
        match r.2 with
        | Except.error e => Except.error e
        | Except.ok qs => Except.ok (q :: qs))

/-- Pipeline `tts_batch` (lines 149-173): per-line queries, one `multi_synthesis`
call, unzip, base64 re-encode in archive order, `connect_waves`, then a
single playback.  Uncaught exceptions abort with the trace up to the abort. -/
def tts_batch (o : BatchOracle) (texts : List String) :
    List BatchEv × Except BatchErr (List ℕ) :=
  let ql := queryLoop o texts
  match ql.2 with
  | Except.error e => (ql.1, Except.error (BatchErr.transport e))
  | Except.ok audio_query_list =>
    match o.multiSynthResp audio_query_list with
    | Except.error e =>
      (ql.1 ++ [BatchEv.multiSynthesisCall audio_query_list],
        Except.error (BatchErr.transport e))
    | Except.ok zip_response =>
      match o.unzip zip_response with
      | Except.error e =>
        (ql.1 ++ [BatchEv.multiSynthesisCall audio_query_list],
          Except.error (BatchErr.zip e))
      | Except.ok members =>
        let b64s := wava_b64_list members
        match o.connectWavesResp b64s with
        | Except.error e =>
          (ql.1 ++ [BatchEv.multiSynthesisCall audio_query_list,
                    BatchEv.connectWavesCall b64s],
            Except.error (BatchErr.transport e))
        | Except.ok wave_response =>
          (ql.1 ++ [BatchEv.multiSynthesisCall audio_query_list,
                    BatchEv.connectWavesCall b64s, BatchEv.playbackCall],
            Except.ok wave_response)

theorem queryLoop_no_connect (o : BatchOracle) :
    ∀ (texts : List String) (b64s : List String),
      BatchEv.connectWavesCall b64s ∉ (queryLoop o texts).1 := by
  intro texts
  induction texts with
  | nil => intro b64s; simp [queryLoop]
  | cons t rest ih =>
    intro b64s
    rw [queryLoop]
    cases h : o.audioQueryResp t with
    | error e => simp
    | ok q => simpa using ih b64s

theorem zipOpenRead_cons_of_ne (m : String × List ℕ)
    (rest : List (String × List ℕ)) (n : String) (hne : ¬ m.1 = n) :
    zipOpenRead (m :: rest) n = zipOpenRead rest n := by
  rw [zipOpenRead, zipOpenRead, List.filter_cons]
  simp [hne]

theorem wava_b64_list_order :
    ∀ members : List (String × List ℕ), (members.map Prod.fst).Nodup →
      wava_b64_list members = members.map (fun m => standard_b64encode m.2) := by
  intro members
  induction members with
  | nil => intro _; rfl
  | cons m rest ih =>
    intro h
    rw [List.map_cons, List.nodup_cons] at h
    obtain ⟨hnotin, hrest⟩ := h
    have hhead : zipOpenRead (m :: rest) m.1 = m.2 := by
      rw [zipOpenRead, List.filter_cons]
      have hfilter : rest.filter (fun r => r.1 == m.1) = [] := by
        rw [List.filter_eq_nil_iff]
        intro r hr
        simp only [beq_iff_eq]
        exact fun heq => hnotin (heq ▸ List.mem_map_of_mem Prod.fst hr)
      simp [hfilter]
    have htail :
        (zipNamelist rest).map
            (fun n => standard_b64encode (zipOpenRead (m :: rest) n))
          = (zipNamelist rest).map
              (fun n => standard_b64encode (zipOpenRead rest n)) := by
      apply List.map_congr_left
      intro n hn
      have hne : ¬ m.1 = n := fun heq => hnotin (heq ▸ hn)
      rw [zipOpenRead_cons_of_ne m rest n hne]
    rw [wava_b64_list, zipNamelist, List.map_cons, List.map_cons, List.map_cons]
    congr 1
    · rw [hhead]
    · have hih : wava_b64_list rest = rest.map (fun x => standard_b64encode x.2) :=
        ih hrest
      rw [wava_b64_list, zipNamelist] at hih
      rw [← hih]
      exact htail

/-- C6: in the batch pipeline, when the archive parses to a member list
(in the archive's internal order, names distinct), the base64 list the
pipeline hands to `connect_waves` is exactly the members' bytes base64
re-encoded in that same archive order, not a re-sorted order. -/
theorem claim_C6_batch_order (o : BatchOracle) (texts : List String)
    (qs : List JsonValue) (zip_response : List ℕ)
    (members : List (String × List ℕ))
    (hq : (queryLoop o texts).2 = Except.ok qs)
    (hm : o.multiSynthResp qs = Except.ok zip_response)
    (hz : o.unzip zip_response = Except.ok members)
    (hnodup : (members.map Prod.fst).Nodup) :
    wava_b64_list members = members.map (fun m => standard_b64encode m.2)
    ∧ BatchEv.connectWavesCall (members.map (fun m => standard_b64encode m.2))
        ∈ (tts_batch o texts).1 := by
  have horder := wava_b64_list_order members hnodup
  refine ⟨horder, ?_⟩
  cases hc : o.connectWavesResp (wava_b64_list members) with
  | error e =>
    simp only [tts_batch, hq, hm, hz, hc]
    rw [← horder]
    simp
  | ok w =>
    simp only [tts_batch, hq, hm, hz, hc]
    rw [← horder]
    simp

/-- Archive order test data: the member names are deliberately not in
lexical order. -/
def unsortedMembers : List (String × List ℕ) :=
  [("b.wav", [1]), ("a.wav", [2]), ("c.wav", [3])]

def unsortedArchiveOracle : BatchOracle where
  audioQueryResp := fun _ => Except.ok (JsonValue.object [])
  multiSynthResp := fun _ => Except.ok [1]
  unzip := fun _ => Except.ok unsortedMembers
  connectWavesResp := fun _ => Except.ok [9]

theorem claim_C6_batch_order_witness :
    (unsortedMembers.map Prod.fst).Nodup
    ∧ BatchEv.connectWavesCall
        (unsortedMembers.map (fun m => standard_b64encode m.2))
      ∈ (tts_batch unsortedArchiveOracle ["first line"]).1 :=
  ⟨by decide,
   (claim_C6_batch_order unsortedArchiveOracle ["first line"]
      [JsonValue.object []] [1] unsortedMembers rfl rfl rfl (by decide)).2⟩

/-- C3 (amended): an HTTP error in the per-line `audio_query` loop, in
`multi_synthesis`, or a corrupt zip each abort the batch run with no
`connect_waves` call; but an archive with an *empty member list* does
not abort — `connect_waves` is called with the empty base64 list. -/
theorem claim_C3_batch_failures :
    (∀ (o : BatchOracle) (texts : List String) (e : TransportErr),
      (queryLoop o texts).2 = Except.error e →
      ((tts_batch o texts).2 = Except.error (BatchErr.transport e)
       ∧ ∀ b64s, BatchEv.connectWavesCall b64s ∉ (tts_batch o texts).1))
    ∧ (∀ (o : BatchOracle) (texts : List String) (qs : List JsonValue)
        (e : TransportErr),
      (queryLoop o texts).2 = Except.ok qs →
      o.multiSynthResp qs = Except.error e →
      ((tts_batch o texts).2 = Except.error (BatchErr.transport e)
       ∧ ∀ b64s, BatchEv.connectWavesCall b64s ∉ (tts_batch o texts).1))
    ∧ (∀ (o : BatchOracle) (texts : List String) (qs : List JsonValue)
        (zip_response : List ℕ) (e : ZipErr),
      (queryLoop o texts).2 = Except.ok qs →
      o.multiSynthResp qs = Except.ok zip_response →
      o.unzip zip_response = Except.error e →
      ((tts_batch o texts).2 = Except.error (BatchErr.zip e)
       ∧ ∀ b64s, BatchEv.connectWavesCall b64s ∉ (tts_batch o texts).1))
    ∧ (∀ (o : BatchOracle) (texts : List String) (qs : List JsonValue)
        (zip_response : List ℕ),
      (queryLoop o texts).2 = Except.ok qs →
      o.multiSynthResp qs = Except.ok zip_response →
      o.unzip zip_response = Except.ok [] →
      BatchEv.connectWavesCall [] ∈ (tts_batch o texts).1) := by
  refine ⟨?_, ?_, ?_, ?_⟩
  · intro o texts e hq
    constructor
    · simp only [tts_batch, hq]
    · intro b64s
      simp only [tts_batch, hq]
      exact queryLoop_no_connect o texts b64s
  · intro o texts qs e hq hm
    constructor
    · simp only [tts_batch, hq, hm]
    · intro b64s
      simp only [tts_batch, hq, hm]
      simp [queryLoop_no_connect o texts b64s]
  · intro o texts qs zip_response e hq hm hz
    constructor
    · simp only [tts_batch, hq, hm, hz]
    · intro b64s
      simp only [tts_batch, hq, hm, hz]
      simp [queryLoop_no_connect o texts b64s]
  · intro o texts qs zip_response hq hm hz
    cases hc : o.connectWavesResp (wava_b64_list []) with
    | error e =>
      simp only [tts_batch, hq, hm, hz, hc]
      simp [wava_b64_list, zipNamelist]
    | ok w =>
      simp only [tts_batch, hq, hm, hz, hc]
      simp [wava_b64_list, zipNamelist]

/-- An oracle whose `multi_synthesis` archive is a valid zip with zero
members. -/
def emptyArchiveOracle : BatchOracle where
  audioQueryResp := fun _ => Except.ok (JsonValue.object [])
  multiSynthResp := fun _ => Except.ok [80, 75, 5, 6]
  unzip := fun _ => Except.ok []
  connectWavesResp := fun _ => Except.ok [82, 73, 70, 70]

/-- C3 (counterexample): with an archive containing zero members the
batch run does *not* abort: `connect_waves` is called with the empty
base64 list and its response becomes the run's final artifact,
contradicting the claim that an empty member list aborts the batch with
no concatenation attempt. -/
theorem claim_C3_empty_archive_counterexample :
    emptyArchiveOracle.unzip [80, 75, 5, 6] = Except.ok []
    ∧ BatchEv.connectWavesCall [] ∈ (tts_batch emptyArchiveOracle ["first line"]).1
    ∧ (tts_batch emptyArchiveOracle ["first line"]).2
        = Except.ok [82, 73, 70, 70] := by
  refine ⟨rfl, ?_, rfl⟩
  simp [tts_batch, queryLoop, emptyArchiveOracle, wava_b64_list, zipNamelist]

/-- An oracle whose `multi_synthesis` response is not a valid zip. -/
def corruptZipOracle : BatchOracle where
  audioQueryResp := fun _ => Except.ok (JsonValue.object [])
  multiSynthResp := fun _ => Except.ok [0]
  unzip := fun _ => Except.error ZipErr.badZipFile
  connectWavesResp := fun _ => Except.ok []

theorem claim_C3_batch_failures_witness :
    (tts_batch corruptZipOracle ["first line"]).2
        = Except.error (BatchErr.zip ZipErr.badZipFile)
    ∧ BatchEv.connectWavesCall [] ∉ (tts_batch corruptZipOracle ["first line"]).1 := by
  have h := claim_C3_batch_failures.2.2.1 corruptZipOracle ["first line"]
      [JsonValue.object []] [0] ZipErr.badZipFile rfl rfl rfl
  exact ⟨h.1, h.2 []⟩

end VveCli
